import Mathlib

/-!
Verification of the description-normalizer in `process_user_stories.py`.

The Python source is a pipeline of `re` substitutions.  We embed it over
`List Char`:
  * the five stripping patterns of `remove_acceptance_criteria` become the
    matchers `match1At` .. `match5At` (each returns the remainder after the
    leftmost-anchored match, mirroring lazy `.*?` bounded by the lookahead
    alternatives, with `$` matching at the end of text or just before a
    final newline, and `re.DOTALL` letting `.` cross newlines);
  * `re.sub(p, '', s)` becomes `subPat`, scanning left to right and
    resuming after each (non-empty) match;
  * `re.sub(r'\n\n\n+', '\n\n', s)` becomes `collapse`;
  * `str.strip()` / `str.strip('*')` become `stripBy`;
  * the story-line regex of `format_description` is embedded with the
    backtracking order of the Python engine: greedy `\s+` (longest first),
    lazy `.*?` (shortest first), greedy `\*?` (present first).
Case-insensitivity (`re.IGNORECASE`) is modelled for ASCII letters by `lc`;
whitespace (`\s`, `str.strip()`) is modelled by the six ASCII whitespace
characters.
-/

/-- Shorthand to write concrete texts. -/
def s2l (s : String) : List Char := s.toList

/-- ASCII lower-casing, modelling `re.IGNORECASE` folding on the texts at hand. -/
def lc : Char → Char
  | 'A' => 'a'
  | 'B' => 'b'
  | 'C' => 'c'
  | 'D' => 'd'
  | 'E' => 'e'
  | 'F' => 'f'
  | 'G' => 'g'
  | 'H' => 'h'
  | 'I' => 'i'
  | 'J' => 'j'
  | 'K' => 'k'
  | 'L' => 'l'
  | 'M' => 'm'
  | 'N' => 'n'
  | 'O' => 'o'
  | 'P' => 'p'
  | 'Q' => 'q'
  | 'R' => 'r'
  | 'S' => 's'
  | 'T' => 't'
  | 'U' => 'u'
  | 'V' => 'v'
  | 'W' => 'w'
  | 'X' => 'x'
  | 'Y' => 'y'
  | 'Z' => 'z'
  | c => c

def low (l : List Char) : List Char := l.map lc

/-- ASCII whitespace, modelling Python `\s` / `str.strip()` on these texts. -/
def isPySpace (c : Char) : Bool :=
  c == ' ' || c == '\t' || c == '\n' || c == '\r' || c == '\x0B' || c == '\x0C'

/-- Case-insensitive character comparison. -/
def lcEq (p c : Char) : Bool := lc p == lc c

/-- Case-insensitive literal: consume `pat` from the front of `l`. -/
def litI : List Char → List Char → Option (List Char)
  | [], l => some l
  | _ :: _, [] => none
  | p :: ps, c :: cs => if lcEq p c then litI ps cs else none

/-- `\s+` followed by a non-whitespace literal: maximal munch is faithful. -/
def wsPlus : List Char → Option (List Char)
  | [] => none
  | c :: cs => if isPySpace c then some (cs.dropWhile isPySpace) else none

/-- Python `$` (no MULTILINE): end of text, or just before a final newline. -/
def atEnd : List Char → Bool
  | [] => true
  | ['\n'] => true
  | _ => false

def h2dot : List Char := ['h', '2', '.']
def accW : List Char := ['a', 'c', 'c', 'e', 'p', 't', 'a', 'n', 'c', 'e']
def critW : List Char := ['c', 'r', 'i', 't', 'e', 'r', 'i', 'a']
def succW : List Char := ['s', 'u', 'c', 'c', 'e', 's', 's']
def metrW : List Char := ['m', 'e', 't', 'r', 'i', 'c', 's']
def descW : List Char := ['d', 'e', 's', 'c', 'r', 'i', 'p', 't', 'i', 'o', 'n']
def nl2 : List Char := ['\n', '\n']
def nl3 : List Char := ['\n', '\n', '\n']

/-- Lookahead alternative `\n\nh2\.` (case-insensitive). -/
def lookH2 : List Char → Bool
  | '\n' :: '\n' :: r => (litI h2dot r).isSome
  | _ => false

/-- Lookahead alternative `\n\n\*`. -/
def lookStar : List Char → Bool
  | '\n' :: '\n' :: '*' :: _ => true
  | _ => false

/-- Lookahead alternative `\n\n\*Success` (case-insensitive). -/
def lookSucc : List Char → Bool
  | '\n' :: '\n' :: '*' :: r => (litI succW r).isSome
  | _ => false

/-- Stop set of pattern 1: `(?=\n\nh2\.|\n\n\*|$)`. -/
def look1 (l : List Char) : Bool := lookH2 l || lookStar l || atEnd l

/-- Stop set of patterns 2 and 3: `(?=\n\n\*Success|\n\nh2\.|$)`. -/
def look23 (l : List Char) : Bool := lookSucc l || lookH2 l || atEnd l

/-- Stop set of patterns 4 and 5: `(?=\n\nh2\.|$)`. -/
def look45 (l : List Char) : Bool := lookH2 l || atEnd l

/-- Lazy `.*?(?=stop)`: stop at the first position where the lookahead holds.
All stop sets used contain `$`, which holds at the end, so returning `[]`
when the list is exhausted agrees with the regex. -/
def lazyUntil (stop : List Char → Bool) : List Char → List Char
  | [] => []
  | c :: cs => if stop (c :: cs) then c :: cs else lazyUntil stop cs

/-- Pattern 1: `\n\nh2\.\s*Acceptance\s+Criteria.*?(?=\n\nh2\.|\n\n\*|$)`.
Returns the remainder after the match. -/
def match1At (l : List Char) : Option (List Char) :=
  match l with
  | '\n' :: '\n' :: r =>
    match litI h2dot r with
    | some r1 =>
      match litI accW (r1.dropWhile isPySpace) with
      | some r2 =>
        match wsPlus r2 with
        | some r3 =>
          match litI critW r3 with
          | some r4 => some (lazyUntil look1 r4)
          | none => none
        | none => none
      | none => none
    | none => none
  | _ => none

/-- Pattern 2: `\n\n\*Acceptance\s+Criteria:\*.*?(?=\n\n\*Success|\n\nh2\.|$)`. -/
def match2At (l : List Char) : Option (List Char) :=
  match l with
  | '\n' :: '\n' :: '*' :: r =>
    match litI accW r with
    | some r1 =>
      match wsPlus r1 with
      | some r2 =>
        match litI critW r2 with
        | some (':' :: '*' :: r3) => some (lazyUntil look23 r3)
        | _ => none
      | none => none
    | none => none
  | _ => none

/-- Pattern 3: `\n\nAcceptance\s+Criteria:.*?(?=\n\n\*Success|\n\nh2\.|$)`. -/
def match3At (l : List Char) : Option (List Char) :=
  match l with
  | '\n' :: '\n' :: r =>
    match litI accW r with
    | some r1 =>
      match wsPlus r1 with
      | some r2 =>
        match litI critW r2 with
        | some (':' :: r3) => some (lazyUntil look23 r3)
        | _ => none
      | none => none
    | none => none
  | _ => none

/-- Pattern 4: `\n\n\*Success\s+Metrics:\*.*?(?=\n\nh2\.|$)`. -/
def match4At (l : List Char) : Option (List Char) :=
  match l with
  | '\n' :: '\n' :: '*' :: r =>
    match litI succW r with
    | some r1 =>
      match wsPlus r1 with
      | some r2 =>
        match litI metrW r2 with
        | some (':' :: '*' :: r3) => some (lazyUntil look45 r3)
        | _ => none
      | none => none
    | none => none
  | _ => none

/-- Pattern 5: `\n\nh2\.\s*Success\s+Metrics.*?(?=\n\nh2\.|$)`. -/
def match5At (l : List Char) : Option (List Char) :=
  match l with
  | '\n' :: '\n' :: r =>
    match litI h2dot r with
    | some r1 =>
      match litI succW (r1.dropWhile isPySpace) with
      | some r2 =>
        match wsPlus r2 with
        | some r3 =>
          match litI metrW r3 with
          | some r4 => some (lazyUntil look45 r4)
          | none => none
        | none => none
      | none => none
    | none => none
  | _ => none

/-- `re.sub(p, '', s)`: scan left to right, delete each leftmost match and
resume after it.  Fuelled by the input length; every matcher consumes at
least two characters, so the fuel never runs out (`subPat` lemmas below). -/
def subFuel (m : List Char → Option (List Char)) : Nat → List Char → List Char
  | _, [] => []
  | 0, l => l
  | n + 1, c :: cs =>
    match m (c :: cs) with
    | some r => subFuel m n r
    | none => c :: subFuel m n cs

def subPat (m : List Char → Option (List Char)) (l : List Char) : List Char :=
  subFuel m l.length l

/-- Exact prefix test. -/
def startsWithSeq : List Char → List Char → Bool
  | [], _ => true
  | _ :: _, [] => false
  | p :: ps, c :: cs => (p == c) && startsWithSeq ps cs

/-- `re.sub(r'\n\n\n+', '\n\n', s)`: collapse runs of three or more
newlines to exactly two.  A head newline followed by two more newlines is
dropped; repeating this reaches the same normal form as replacing each
maximal run of three or more by two. -/
def collapse : List Char → List Char
  | [] => []
  | c :: cs =>
    if c == '\n' && startsWithSeq nl2 cs then collapse cs
    else c :: collapse cs

/-- Strip characters satisfying `p` from the right end (`str.strip` half). -/
def rstripBy (p : Char → Bool) (l : List Char) : List Char :=
  (l.reverse.dropWhile p).reverse

/-- Python `str.strip(chars)`: drop from both ends. -/
def stripBy (p : Char → Bool) (l : List Char) : List Char :=
  rstripBy p (l.dropWhile p)

/-- Python `str.strip()` (whitespace). -/
def pstrip : List Char → List Char := stripBy isPySpace

/-- Python `str.strip('*')`. -/
def stripStars : List Char → List Char := stripBy (fun c => c == '*')

/-- `remove_acceptance_criteria` on a (non-None) text: the five
substitutions in order, then newline collapsing, then `strip()`. -/
def removeACtext (s : List Char) : List Char :=
  pstrip (collapse (subPat match5At (subPat match4At (subPat match3At
    (subPat match2At (subPat match1At s))))))

def soW : List Char := ['s', 'o']
def asW : List Char := ['a', 's']
def aW : List Char := ['a']

/-- Greedy `\s+` with backtracking: consume one whitespace character, then
prefer consuming more before handing over to the continuation `k`. -/
def ws1 (k : List Char → Option (List Char)) : List Char → Option (List Char)
  | [] => none
  | c :: cs => if isPySpace c then (ws1 k cs <|> k cs) else none

/-- Final `.*?\*?\n` of the story-line regex: at each position first try
`\*?` (asterisk present preferred) followed by `\n`, else consume one
character (DOTALL) and retry.  Returns the remainder after the `\n`. -/
def tail2 : List Char → Option (List Char)
  | '*' :: '\n' :: r => some r
  | '\n' :: r => some r
  | _ :: cs => tail2 cs
  | [] => none

/-- Lazy `.*?so\s+` of the story-line regex: at each position try `so`
followed by the rest of the pattern, else consume one character. -/
def tail1 : List Char → Option (List Char)
  | [] => none
  | c :: cs =>
    (match litI soW (c :: cs) with
     | some r => ws1 tail2 r
     | none => none) <|> tail1 cs

/-- `a\s+` then the lazy tail. -/
def msA (l : List Char) : Option (List Char) :=
  match litI aW l with
  | some r => ws1 tail1 r
  | none => none

/-- `As\s+a\s+...`: the story-line pattern after the optional `*`. -/
def msAs (l : List Char) : Option (List Char) :=
  match litI asW l with
  | some r => ws1 msA r
  | none => none

/-- `re.match(r'^(\*?As\s+a\s+.*?so\s+.*?\*?)\n', s, re.I | re.S)`.
Returns the remainder after the whole match (after the final `\n`);
the group is the matched span without that newline.  `\*?` is greedy:
the branch consuming `*` is tried first. -/
def matchUserStory (l : List Char) : Option (List Char) :=
  match l with
  | '*' :: cs => msAs cs <|> msAs ('*' :: cs)
  | _ => msAs l

/-- `re.match(r'^h2\.\s*Description', rest, re.IGNORECASE)` as a test. -/
def startsH2Desc (l : List Char) : Bool :=
  match litI h2dot l with
  | some r => (litI descW (r.dropWhile isPySpace)).isSome
  | none => false

def h2DescLine : List Char :=
  ['h', '2', '.', ' ', 'D', 'e', 's', 'c', 'r', 'i', 'p', 't', 'i', 'o', 'n']

/-- `format_description` on a (non-None) text. -/
def formatText (s : List Char) : List Char :=
  match matchUserStory s with
  | none => s
  | some r =>
    let g := s.take (s.length - (r.length + 1))
    let story := stripStars (pstrip g)
    let rest := pstrip r
    if startsH2Desc rest then story ++ nl2 ++ rest
    else story ++ nl2 ++ h2DescLine ++ nl2 ++ rest

/-- `process_description` on a (non-None) text. -/
def processText (s : List Char) : List Char := formatText (removeACtext s)

/-- `remove_acceptance_criteria(description)`, `None` modelled as `none`;
`if not description: return description` covers both `None` and `""`. -/
def remove_acceptance_criteria : Option (List Char) → Option (List Char)
  | none => none
  | some s => if s.isEmpty then some s else some (removeACtext s)

/-- `format_description(description)` at the same level. -/
def format_description : Option (List Char) → Option (List Char)
  | none => none
  | some s => if s.isEmpty then some s else some (formatText s)

/-- `process_description(description)`: guard, strip sections, format. -/
def process_description : Option (List Char) → Option (List Char)
  | none => none
  | some s =>
    if s.isEmpty then some s
    else format_description (remove_acceptance_criteria (some s))

/-- Exact (case-sensitive) substring test. -/
def containsSeq (pat : List Char) : List Char → Bool
  | [] => startsWithSeq pat []
  | c :: cs => startsWithSeq pat (c :: cs) || containsSeq pat cs

/-- Case-insensitive substring test. -/
def containsI (pat : List Char) : List Char → Bool
  | [] => (litI pat []).isSome
  | c :: cs => (litI pat (c :: cs)).isSome || containsI pat cs

/-! ### Bridges between the executable tests and `List.IsInfix` facts -/

theorem startsWithSeq_iff (p l : List Char) :
    startsWithSeq p l = true ↔ p <+: l := by
  induction p generalizing l with
  | nil => simp [startsWithSeq, List.nil_prefix]
  | cons a ps ih =>
    cases l with
    | nil => simp [startsWithSeq, List.prefix_nil]
    | cons c cs =>
      simp [startsWithSeq, List.cons_prefix_cons, ih, beq_iff_eq, and_comm]

theorem containsSeq_iff (p l : List Char) :
    containsSeq p l = true ↔ p <:+: l := by
  induction l with
  | nil =>
    cases p with
    | nil => simp [containsSeq, startsWithSeq]
    | cons a ps =>
      simp [containsSeq, startsWithSeq]
  | cons c cs ih =>
    simp [containsSeq, startsWithSeq_iff, ih, List.infix_cons_iff]

theorem litI_isSome_iff (p l : List Char) :
    (litI p l).isSome = true ↔ low p <+: low l := by
  induction p generalizing l with
  | nil => simp [litI, low, List.nil_prefix]
  | cons a ps ih =>
    cases l with
    | nil => simp [litI, low, List.prefix_nil]
    | cons c cs =>
      simp only [litI, low, List.map_cons]
      by_cases h : lcEq a c = true
      · have : lc a = lc c := by simpa [lcEq, beq_iff_eq] using h
        simp [h, List.cons_prefix_cons, this, ih, low]
      · have : ¬ lc a = lc c := by simpa [lcEq, beq_iff_eq] using h
        simp [h, List.cons_prefix_cons, this]

theorem containsI_iff (p l : List Char) :
    containsI p l = true ↔ low p <:+: low l := by
  induction l with
  | nil =>
    cases p with
    | nil => simp [containsI, litI]
    | cons a ps =>
      simp [containsI, litI, low]
  | cons c cs ih =>
    simp [containsI, litI_isSome_iff, ih, low, List.infix_cons_iff]

/-! ### Suffix and consumption facts about the matchers -/

theorem litI_suffix {p l r : List Char} (h : litI p l = some r) : r <:+ l := by
  induction p generalizing l with
  | nil => simp [litI] at h; simp [h, List.suffix_refl]
  | cons a ps ih =>
    cases l with
    | nil => simp [litI] at h
    | cons c cs =>
      simp only [litI] at h
      by_cases he : lcEq a c = true
      · simp [he] at h
        exact (ih h).trans (List.suffix_cons c cs)
      · simp [he] at h

theorem wsPlus_suffix {l r : List Char} (h : wsPlus l = some r) : r <:+ l := by
  cases l with
  | nil => simp [wsPlus] at h
  | cons c cs =>
    simp only [wsPlus] at h
    by_cases hs : isPySpace c = true
    · simp [hs] at h
      exact (h ▸ List.dropWhile_suffix isPySpace).trans (List.suffix_cons c cs)
    · simp [hs] at h

theorem lazyUntil_suffix (stop : List Char → Bool) (l : List Char) :
    lazyUntil stop l <:+ l := by
  induction l with
  | nil => exact List.suffix_refl _
  | cons c cs ih =>
    simp only [lazyUntil]
    by_cases h : stop (c :: cs) = true
    · simp [h]
    · simp [h]
      exact ih.trans (List.suffix_cons c cs)

theorem match1At_shape {l r : List Char} (h : match1At l = some r) :
    ∃ u, l = '\n' :: '\n' :: u := by
  unfold match1At at h
  split at h
  next u => exact ⟨u, rfl⟩
  next => simp at h

theorem match2At_shape {l r : List Char} (h : match2At l = some r) :
    ∃ u, l = '\n' :: '\n' :: u := by
  unfold match2At at h
  split at h
  next u => exact ⟨'*' :: u, rfl⟩
  next => simp at h

theorem match3At_shape {l r : List Char} (h : match3At l = some r) :
    ∃ u, l = '\n' :: '\n' :: u := by
  unfold match3At at h
  split at h
  next u => exact ⟨u, rfl⟩
  next => simp at h

theorem match4At_shape {l r : List Char} (h : match4At l = some r) :
    ∃ u, l = '\n' :: '\n' :: u := by
  unfold match4At at h
  split at h
  next u => exact ⟨'*' :: u, rfl⟩
  next => simp at h

theorem match5At_shape {l r : List Char} (h : match5At l = some r) :
    ∃ u, l = '\n' :: '\n' :: u := by
  unfold match5At at h
  split at h
  next u => exact ⟨u, rfl⟩
  next => simp at h

theorem match1At_consumes {l r : List Char} (h : match1At l = some r) :
    r.length < l.length := by
  unfold match1At at h
  split at h
  next t =>
    split at h
    next r1 h1 =>
      split at h
      next r2 h2 =>
        split at h
        next r3 h3 =>
          split at h
          next r4 h4 =>
            injection h with h5
            have hs : r <:+ t := by
              rw [← h5]
              exact ((((lazyUntil_suffix look1 r4).trans (litI_suffix h4)).trans
                (wsPlus_suffix h3)).trans
                ((litI_suffix h2).trans (List.dropWhile_suffix isPySpace))).trans
                (litI_suffix h1)
            have := hs.length_le
            simp only [List.length_cons]
            omega
          next => simp at h
        next => simp at h
      next => simp at h
    next => simp at h
  next => simp at h

theorem match2At_consumes {l r : List Char} (h : match2At l = some r) :
    r.length < l.length := by
  unfold match2At at h
  split at h
  next t =>
    split at h
    next r1 h1 =>
      split at h
      next r2 h2 =>
        split at h
        next r3 h3 =>
          injection h with h5
          have hs : r <:+ t := by
            rw [← h5]
            exact ((((lazyUntil_suffix look23 r3).trans
              (List.suffix_cons '*' r3)).trans
              (List.suffix_cons ':' ('*' :: r3))).trans
              ((litI_suffix h3).trans (wsPlus_suffix h2))).trans
              (litI_suffix h1)
          have := hs.length_le
          simp only [List.length_cons]
          omega
        next => simp at h
      next => simp at h
    next => simp at h
  next => simp at h

theorem match3At_consumes {l r : List Char} (h : match3At l = some r) :
    r.length < l.length := by
  unfold match3At at h
  split at h
  next t =>
    split at h
    next r1 h1 =>
      split at h
      next r2 h2 =>
        split at h
        next r3 h3 =>
          injection h with h5
          have hs : r <:+ t := by
            rw [← h5]
            exact (((lazyUntil_suffix look23 r3).trans
              (List.suffix_cons ':' r3)).trans
              ((litI_suffix h3).trans (wsPlus_suffix h2))).trans
              (litI_suffix h1)
          have := hs.length_le
          simp only [List.length_cons]
          omega
        next => simp at h
      next => simp at h
    next => simp at h
  next => simp at h

theorem match4At_consumes {l r : List Char} (h : match4At l = some r) :
    r.length < l.length := by
  unfold match4At at h
  split at h
  next t =>
    split at h
    next r1 h1 =>
      split at h
      next r2 h2 =>
        split at h
        next r3 h3 =>
          injection h with h5
          have hs : r <:+ t := by
            rw [← h5]
            exact ((((lazyUntil_suffix look45 r3).trans
              (List.suffix_cons '*' r3)).trans
              (List.suffix_cons ':' ('*' :: r3))).trans
              ((litI_suffix h3).trans (wsPlus_suffix h2))).trans
              (litI_suffix h1)
          have := hs.length_le
          simp only [List.length_cons]
          omega
        next => simp at h
      next => simp at h
    next => simp at h
  next => simp at h

theorem match5At_consumes {l r : List Char} (h : match5At l = some r) :
    r.length < l.length := by
  unfold match5At at h
  split at h
  next t =>
    split at h
    next r1 h1 =>
      split at h
      next r2 h2 =>
        split at h
        next r3 h3 =>
          split at h
          next r4 h4 =>
            injection h with h5
            have hs : r <:+ t := by
              rw [← h5]
              exact ((((lazyUntil_suffix look45 r4).trans (litI_suffix h4)).trans
                (wsPlus_suffix h3)).trans
                ((litI_suffix h2).trans (List.dropWhile_suffix isPySpace))).trans
                (litI_suffix h1)
            have := hs.length_le
            simp only [List.length_cons]
            omega
          next => simp at h
        next => simp at h
      next => simp at h
    next => simp at h
  next => simp at h

/-! ### Rewriting rules for the substitution scanner -/

theorem subFuel_congr {m : List Char → Option (List Char)}
    (hc : ∀ l r, m l = some r → r.length < l.length) :
    ∀ n₁ n₂ l, l.length ≤ n₁ → l.length ≤ n₂ →
      subFuel m n₁ l = subFuel m n₂ l := by
  intro n₁
  induction n₁ with
  | zero =>
    intro n₂ l h1 _
    have : l = [] := by cases l <;> simp_all
    subst this
    cases n₂ <;> rfl
  | succ n ih =>
    intro n₂ l h1 h2
    cases l with
    | nil => cases n₂ <;> rfl
    | cons c cs =>
      cases n₂ with
      | zero => simp at h2
      | succ m₂ =>
        simp only [subFuel]
        simp only [List.length_cons] at h1 h2
        cases hm : m (c :: cs) with
        | some r =>
          have := hc _ _ hm
          simp only [List.length_cons] at this
          exact ih m₂ r (by omega) (by omega)
        | none =>
          rw [ih m₂ cs (by omega) (by omega)]

theorem subPat_cons_none {m : List Char → Option (List Char)} {c : Char}
    {cs : List Char} (h : m (c :: cs) = none) :
    subPat m (c :: cs) = c :: subPat m cs := by
  simp only [subPat, List.length_cons, subFuel, h]

theorem subPat_cons_some {m : List Char → Option (List Char)}
    (hc : ∀ l r, m l = some r → r.length < l.length) {c : Char}
    {cs r : List Char} (h : m (c :: cs) = some r) :
    subPat m (c :: cs) = subPat m r := by
  have hl := hc _ _ h
  simp only [List.length_cons] at hl
  simp only [subPat, List.length_cons, subFuel, h]
  exact subFuel_congr hc cs.length r.length r (by omega) (le_refl _)

theorem subPat_id_of_none {m : List Char → Option (List Char)} {l : List Char}
    (H : ∀ t, t <:+ l → m t = none) : subPat m l = l := by
  induction l with
  | nil => rfl
  | cons c cs ih =>
    rw [subPat_cons_none (H _ (List.suffix_refl _)),
      ih (fun t ht => H t (ht.trans (List.suffix_cons c cs)))]

/-! ### Generic corollaries about the five matchers -/

theorem containsSeq_of_starts {p l : List Char}
    (h : startsWithSeq p l = true) : containsSeq p l = true := by
  cases l <;> simp [containsSeq, h]

theorem containsSeq_false_of_isInf {p l t : List Char} (ht : t <:+: l)
    (h : containsSeq p l = false) : containsSeq p t = false := by
  rw [← Bool.not_eq_true] at h ⊢
  intro hc
  exact h ((containsSeq_iff p l).mpr (((containsSeq_iff p t).mp hc).trans ht))

theorem containsI_false_of_isInf {p l t : List Char} (ht : t <:+: l)
    (h : containsI p l = false) : containsI p t = false := by
  rw [← Bool.not_eq_true] at h ⊢
  intro hc
  exact h ((containsI_iff p l).mpr
    (((containsI_iff p t).mp hc).trans (List.IsInfix.map lc ht)))

theorem matchAt_ne_of_shape {m : List Char → Option (List Char)}
    (hs : ∀ l r, m l = some r → ∃ u, l = '\n' :: '\n' :: u)
    {c : Char} {cs : List Char} (h : ¬ c = '\n') : m (c :: cs) = none := by
  cases hm : m (c :: cs) with
  | none => rfl
  | some r =>
    obtain ⟨u, hu⟩ := hs _ _ hm
    injection hu with h1 _
    exact absurd h1 h

theorem matchAt_none_of_noNl2 {m : List Char → Option (List Char)}
    (hs : ∀ l r, m l = some r → ∃ u, l = '\n' :: '\n' :: u)
    {l : List Char} (h : containsSeq nl2 l = false) : m l = none := by
  cases hm : m l with
  | none => rfl
  | some r =>
    obtain ⟨u, hu⟩ := hs _ _ hm
    subst hu
    have : startsWithSeq nl2 ('\n' :: '\n' :: u) = true := by
      simp [startsWithSeq, nl2]
    simp [containsSeq_of_starts this] at h

theorem subPat_id_of_noNl2 {m : List Char → Option (List Char)}
    (hs : ∀ l r, m l = some r → ∃ u, l = '\n' :: '\n' :: u)
    {l : List Char} (h : containsSeq nl2 l = false) : subPat m l = l :=
  subPat_id_of_none fun _ ht =>
    matchAt_none_of_noNl2 hs (containsSeq_false_of_isInf ht.isInfix h)

theorem subPat_append_of_ne {m : List Char → Option (List Char)}
    (hs : ∀ l r, m l = some r → ∃ u, l = '\n' :: '\n' :: u)
    {I : List Char} (hI : '\n' ∉ I) (rest : List Char) :
    subPat m (I ++ rest) = I ++ subPat m rest := by
  induction I with
  | nil => simp
  | cons c cs ih =>
    simp only [List.mem_cons, not_or] at hI
    rw [List.cons_append,
      subPat_cons_none (matchAt_ne_of_shape hs (fun hc => hI.1 hc.symm)),
      ih (by simpa using hI.2), List.cons_append]

/-! ### The lazy tails stop at the end when no blank line is ahead -/

theorem atEnd_cases {l : List Char} (h : atEnd l = true) :
    l = [] ∨ l = ['\n'] := by
  unfold atEnd at h
  split at h
  · left; rfl
  · right; rfl
  · simp at h

theorem lookH2_starts {l : List Char} (h : lookH2 l = true) :
    startsWithSeq nl2 l = true := by
  unfold lookH2 at h
  split at h
  next r => simp [startsWithSeq, nl2]
  next => simp at h

theorem lookStar_starts {l : List Char} (h : lookStar l = true) :
    startsWithSeq nl2 l = true := by
  unfold lookStar at h
  split at h
  next r => simp [startsWithSeq, nl2]
  next => simp at h

theorem lookSucc_starts {l : List Char} (h : lookSucc l = true) :
    startsWithSeq nl2 l = true := by
  unfold lookSucc at h
  split at h
  next r => simp [startsWithSeq, nl2]
  next => simp at h

theorem containsSeq_cons_false {p : List Char} {c : Char} {cs : List Char}
    (h : containsSeq p (c :: cs) = false) :
    startsWithSeq p (c :: cs) = false ∧ containsSeq p cs = false := by
  simpa [containsSeq] using h

theorem lazyUntil_of_noNl2 {stop : List Char → Bool}
    (hstop : ∀ c cs, stop (c :: cs) = true →
      startsWithSeq nl2 (c :: cs) = true ∨ c :: cs = ['\n'])
    {B : List Char} (h : containsSeq nl2 B = false) :
    lazyUntil stop B = [] ∨ lazyUntil stop B = ['\n'] := by
  induction B with
  | nil => left; rfl
  | cons c cs ih =>
    simp only [lazyUntil]
    by_cases hs : stop (c :: cs) = true
    · rcases hstop c cs hs with h1 | h1
      · simp [containsSeq_of_starts h1] at h
      · rw [if_pos hs, h1]
        right
        rfl
    · rw [if_neg hs]
      exact ih (containsSeq_cons_false h).2

theorem look1_stop (c : Char) (cs : List Char) (h : look1 (c :: cs) = true) :
    startsWithSeq nl2 (c :: cs) = true ∨ c :: cs = ['\n'] := by
  simp only [look1, Bool.or_eq_true] at h
  rcases h with (h | h) | h
  · exact Or.inl (lookH2_starts h)
  · exact Or.inl (lookStar_starts h)
  · rcases atEnd_cases h with h | h
    · simp at h
    · exact Or.inr h

theorem look23_stop (c : Char) (cs : List Char) (h : look23 (c :: cs) = true) :
    startsWithSeq nl2 (c :: cs) = true ∨ c :: cs = ['\n'] := by
  simp only [look23, Bool.or_eq_true] at h
  rcases h with (h | h) | h
  · exact Or.inl (lookSucc_starts h)
  · exact Or.inl (lookH2_starts h)
  · rcases atEnd_cases h with h | h
    · simp at h
    · exact Or.inr h

theorem look45_stop (c : Char) (cs : List Char) (h : look45 (c :: cs) = true) :
    startsWithSeq nl2 (c :: cs) = true ∨ c :: cs = ['\n'] := by
  simp only [look45, Bool.or_eq_true] at h
  rcases h with h | h
  · exact Or.inl (lookH2_starts h)
  · rcases atEnd_cases h with h | h
    · simp at h
    · exact Or.inr h

/-! ### Facts about `collapse` -/

theorem starts_nl2_shape {l : List Char} (h : startsWithSeq nl2 l = true) :
    ∃ t, l = '\n' :: '\n' :: t := by
  match l with
  | [] => simp [startsWithSeq, nl2] at h
  | [c] => simp [startsWithSeq, nl2] at h
  | c :: d :: t =>
    simp [startsWithSeq, nl2] at h
    exact ⟨t, by rw [← h.1, ← h.2]⟩

theorem starts_nl3_cons {c : Char} {x : List Char} :
    startsWithSeq nl3 (c :: x) = true ↔ c = '\n' ∧ startsWithSeq nl2 x = true := by
  constructor
  · intro h
    have h2 : (('\n' == c) && startsWithSeq nl2 x) = true := h
    rw [Bool.and_eq_true] at h2
    exact ⟨(beq_iff_eq.mp h2.1).symm, h2.2⟩
  · rintro ⟨h1, h2⟩
    show (('\n' == c) && startsWithSeq nl2 x) = true
    simp [h1, h2]

theorem collapse_cons_drop {c : Char} {cs : List Char}
    (h : (c == '\n' && startsWithSeq nl2 cs) = true) :
    collapse (c :: cs) = collapse cs := by
  rw [collapse.eq_def]
  simp [h]

theorem collapse_cons_keep {c : Char} {cs : List Char}
    (h : (c == '\n' && startsWithSeq nl2 cs) = false) :
    collapse (c :: cs) = c :: collapse cs := by
  simp only [collapse, h]
  simp

theorem collapse_head_opt (l : List Char) : (collapse l).head? = l.head? := by
  induction l with
  | nil => rfl
  | cons c cs ih =>
    by_cases hc : (c == '\n' && startsWithSeq nl2 cs) = true
    · obtain ⟨h1, h2⟩ := by simpa [Bool.and_eq_true] using hc
      obtain ⟨t, ht⟩ := starts_nl2_shape h2
      rw [collapse_cons_drop hc, ih, ht, h1]
      rfl
    · rw [collapse_cons_keep (by simpa using hc)]
      rfl

theorem starts_nl2_collapse {l : List Char}
    (h : startsWithSeq nl2 (collapse l) = true) :
    startsWithSeq nl2 l = true := by
  induction l with
  | nil => exact h
  | cons c cs ih =>
    by_cases hc : (c == '\n' && startsWithSeq nl2 cs) = true
    · obtain ⟨h1, h2⟩ := by simpa [Bool.and_eq_true] using hc
      obtain ⟨t, ht⟩ := starts_nl2_shape h2
      rw [h1, ht]
      simp [startsWithSeq, nl2]
    · rw [collapse_cons_keep (by simpa using hc)] at h
      obtain ⟨t, ht⟩ := starts_nl2_shape h
      injection ht with he ht2
      have hd : cs.head? = some '\n' := by
        rw [← collapse_head_opt, ht2]
        rfl
      cases cs with
      | nil => simp at hd
      | cons d ds =>
        simp at hd
        rw [he, hd]
        simp [startsWithSeq, nl2]

theorem collapse_noNl3 (l : List Char) :
    containsSeq nl3 (collapse l) = false := by
  induction l with
  | nil => rfl
  | cons c cs ih =>
    by_cases hc : (c == '\n' && startsWithSeq nl2 cs) = true
    · rw [collapse_cons_drop hc]
      exact ih
    · rw [collapse_cons_keep (by simpa using hc)]
      cases hstart : startsWithSeq nl3 (c :: collapse cs) with
      | false => simp [containsSeq, hstart, ih]
      | true =>
        obtain ⟨h1, h2⟩ := starts_nl3_cons.mp hstart
        have h3 := starts_nl2_collapse h2
        exact absurd (by simp [h1, h3] :
          (c == '\n' && startsWithSeq nl2 cs) = true) hc

theorem collapse_id {l : List Char} (h : containsSeq nl3 l = false) :
    collapse l = l := by
  induction l with
  | nil => rfl
  | cons c cs ih =>
    obtain ⟨h1, h2⟩ := containsSeq_cons_false h
    by_cases hc : (c == '\n' && startsWithSeq nl2 cs) = true
    · rw [Bool.and_eq_true] at hc
      exact absurd (starts_nl3_cons.mpr ⟨beq_iff_eq.mp hc.1, hc.2⟩)
        (by simp [h1])
    · rw [collapse_cons_keep (by simpa using hc), ih h2]

/-! ### `strip` only removes characters at the two ends -/

theorem rstripBy_isPre (p : Char → Bool) (l : List Char) :
    rstripBy p l <+: l := by
  have h := List.reverse_prefix.mpr (List.dropWhile_suffix (l := l.reverse) p)
  simpa [rstripBy] using h

theorem stripBy_isInf (p : Char → Bool) (l : List Char) :
    stripBy p l <:+: l :=
  (rstripBy_isPre p (l.dropWhile p)).isInfix.trans
    (List.dropWhile_suffix p).isInfix

theorem pstrip_isInf (l : List Char) : pstrip l <:+: l := stripBy_isInf _ l

/-! ### Occurrence bookkeeping for appended tails -/

theorem infix_concat_drop {p l : List Char} {x : Char}
    (h : p <:+: l ++ [x]) (hx : x ∉ p) : p <:+: l := by
  rw [← List.reverse_infix] at h ⊢
  rw [List.reverse_append] at h
  simp only [List.reverse_cons, List.reverse_nil, List.nil_append,
    List.singleton_append] at h
  rcases List.infix_cons_iff.mp h with h1 | h1
  · cases hp : p.reverse with
    | nil =>
      have : p = [] := by simpa using congrArg List.reverse hp
      simp [this]
    | cons a t =>
      rw [hp] at h1
      obtain ⟨ha, -⟩ := List.cons_prefix_cons.mp h1
      exact absurd (List.mem_reverse.mp (hp ▸ List.mem_cons_self a t))
        (ha ▸ hx)
  · exact h1

theorem containsI_append_nl {p l : List Char} (hnl : '\n' ∉ low p)
    (h : containsI p l = false) : containsI p (l ++ ['\n']) = false := by
  rw [← Bool.not_eq_true] at h ⊢
  intro hc
  have h2 : low p <:+: low l ++ ['\n'] := by
    have h4 := (containsI_iff _ _).mp hc
    simpa [low, List.map_append, show lc '\n' = '\n' from rfl] using h4
  exact h ((containsI_iff _ _).mpr (infix_concat_drop h2 hnl))

theorem noNl2_of_nlFree {I : List Char} (hI : '\n' ∉ I) :
    containsSeq nl2 I = false := by
  rw [← Bool.not_eq_true]
  intro h
  exact hI (((containsSeq_iff _ _).mp h).subset (by simp [nl2]))

theorem noNl2_append {I : List Char} (hI : '\n' ∉ I) :
    containsSeq nl2 (I ++ ['\n']) = false := by
  rw [← Bool.not_eq_true]
  intro h
  have h2 := (containsSeq_iff _ _).mp h
  rw [← List.reverse_infix, List.reverse_append] at h2
  simp only [List.reverse_cons, List.reverse_nil, List.nil_append,
    List.singleton_append] at h2
  have hrev : (nl2.reverse : List Char) = nl2 := by decide
  rw [hrev] at h2
  rcases List.infix_cons_iff.mp h2 with h3 | h3
  · have h4 : (['\n', '\n'] : List Char) <+: '\n' :: I.reverse := by
      simpa [nl2] using h3
    obtain ⟨-, h5⟩ := List.cons_prefix_cons.mp h4
    exact hI (List.mem_reverse.mp (h5.subset (by simp)))
  · exact hI (List.mem_reverse.mp (h3.subset (by simp [nl2])))

theorem noNl3_of_noNl2 {l : List Char} (h : containsSeq nl2 l = false) :
    containsSeq nl3 l = false := by
  rw [← Bool.not_eq_true] at h ⊢
  intro hc
  exact h ((containsSeq_iff _ _).mpr
    ((by decide : nl2 <:+: nl3).trans ((containsSeq_iff _ _).mp hc)))

theorem containsI_false_mono {p q l : List Char} (hpq : low p <:+: low q)
    (h : containsI p l = false) : containsI q l = false := by
  rw [← Bool.not_eq_true] at h ⊢
  intro hc
  exact h ((containsI_iff _ _).mpr (hpq.trans ((containsI_iff _ _).mp hc)))

/-! ### Unfolding helpers for the Python-level functions -/

theorem formatText_of_no_match {s : List Char} (h : matchUserStory s = none) :
    formatText s = s := by
  unfold formatText
  rw [h]

theorem process_description_some (s : List Char) :
    process_description (some s) = some (processText s) := by
  by_cases h : s.isEmpty
  · have h0 : s = [] := by simpa using h
    subst h0
    rfl
  · simp only [process_description, remove_acceptance_criteria,
      format_description, h, if_false]
    by_cases h2 : (removeACtext s).isEmpty
    · have h3 : removeACtext s = [] := by simpa using h2
      simp [h2, processText, h3]
      rfl
    · simp [h2, processText]

/-! ### Claim theorems -/

/-- C4: `process` on the exact spec example
`"*As a developer, I want X so Y*\n\nDescription here.\n\n*Acceptance Criteria:*\n* Item 1"`
returns exactly `"As a developer, I want X so Y\n\nh2. Description\n\nDescription here."`:
bold markers stripped from the story line, the acceptance-criteria section
removed, and the Description heading inserted. -/
theorem c4_bold_wrap_example :
    process_description (some (s2l ("*As a developer, I want X so Y*\n\nDescription here.\n\n*Acceptance Criteria:*\n* Item 1"))) =
      some (s2l ("As a developer, I want X so Y\n\nh2. Description\n\nDescription here.")) := by
  rfl

/-- C7: absence is a no-op: `process(None) = None`, `process("") = ""`, and
likewise for each stage (`remove_acceptance_criteria`, `format_description`). -/
theorem c7_absence_is_noop :
    process_description none = none ∧
    process_description (some (s2l (""))) = some (s2l ("")) ∧
    remove_acceptance_criteria none = none ∧
    remove_acceptance_criteria (some (s2l (""))) = some (s2l ("")) ∧
    format_description none = none ∧
    format_description (some (s2l (""))) = some (s2l ("")) :=
  ⟨rfl, rfl, rfl, rfl, rfl, rfl⟩

/-- C5: pass-through for non-user-story input: if the section-stripped form
of a non-empty text does not begin with a user-story match, then `process`
returns exactly the section stripper's output, and the formatting stage is
the identity on that output. -/
theorem c5_passthrough (s : List Char) (_hne : s ≠ [])
    (h : matchUserStory (removeACtext s) = none) :
    process_description (some s) = some (removeACtext s) ∧
    formatText (removeACtext s) = removeACtext s := by
  have h2 := formatText_of_no_match h
  refine ⟨?_, h2⟩
  rw [process_description_some]
  unfold processText
  rw [h2]

theorem c5_passthrough_witness :
    process_description (some (s2l ("hello world"))) =
      some (removeACtext (s2l ("hello world"))) ∧
    formatText (removeACtext (s2l ("hello world"))) =
      removeACtext (s2l ("hello world")) :=
  c5_passthrough (s2l ("hello world")) (by decide) (by rfl)

/-! ### The lazy tail of the story-line regex absorbs trailing asterisks -/

theorem tail2_rep (n : Nat) (Z : List Char) :
    tail2 (List.replicate n '*' ++ '\n' :: Z) = some Z := by
  induction n with
  | zero => rfl
  | succ m ih =>
    rw [List.replicate_succ, List.cons_append]
    cases m with
    | zero => rfl
    | succ k =>
      rw [List.replicate_succ, List.cons_append] at ih ⊢
      exact ih

theorem dropWhile_replicate_false {p : Char → Bool} {a : Char}
    (hp : p a = false) (n : Nat) (t : List Char)
    (ht : t.dropWhile p = t) :
    (List.replicate n a ++ t).dropWhile p = List.replicate n a ++ t := by
  cases n with
  | zero => simpa using ht
  | succ m =>
    rw [List.replicate_succ, List.cons_append, List.dropWhile_cons, hp]
    simp

theorem dropWhile_replicate_true {p : Char → Bool} {a : Char}
    (hp : p a = true) (n : Nat) (t : List Char) :
    (List.replicate n a ++ t).dropWhile p = t.dropWhile p := by
  induction n with
  | zero => simp
  | succ m ih =>
    rw [List.replicate_succ, List.cons_append, List.dropWhile_cons, hp]
    exact ih

/-- The story-line regex matches `*As a x so y` followed by any number of
trailing asterisks and a newline; the match always ends after that
newline. -/
theorem matchUserStory_trailing_stars (n : Nat) :
    matchUserStory (s2l ("*As a x so y") ++ List.replicate n '*' ++ s2l ("\nZ")) =
      some (s2l ("Z")) := by
  rw [List.append_assoc]
  have l2 : tail2 ('y' :: (List.replicate n '*' ++ s2l ("\nZ"))) =
      some (s2l ("Z")) :=
    tail2_rep n (s2l ("Z"))
  have l3 : ws1 tail2 (' ' :: 'y' :: (List.replicate n '*' ++ s2l ("\nZ"))) =
      some (s2l ("Z")) := by
    have e1 : ws1 tail2 (' ' :: 'y' :: (List.replicate n '*' ++ s2l ("\nZ"))) =
        (ws1 tail2 ('y' :: (List.replicate n '*' ++ s2l ("\nZ"))) <|>
          tail2 ('y' :: (List.replicate n '*' ++ s2l ("\nZ")))) := rfl
    have e2 : ws1 tail2 ('y' :: (List.replicate n '*' ++ s2l ("\nZ"))) =
        none := rfl
    rw [e1, e2, l2]
    rfl
  have l4 : tail1 ('s' :: 'o' :: ' ' :: 'y' ::
      (List.replicate n '*' ++ s2l ("\nZ"))) = some (s2l ("Z")) := by
    have e1 : tail1 ('s' :: 'o' :: ' ' :: 'y' ::
        (List.replicate n '*' ++ s2l ("\nZ"))) =
        (ws1 tail2 (' ' :: 'y' :: (List.replicate n '*' ++ s2l ("\nZ"))) <|>
          tail1 ('o' :: ' ' :: 'y' ::
            (List.replicate n '*' ++ s2l ("\nZ")))) := rfl
    rw [e1, l3]
    rfl
  have l5 : tail1 ('x' :: ' ' :: 's' :: 'o' :: ' ' :: 'y' ::
      (List.replicate n '*' ++ s2l ("\nZ"))) = some (s2l ("Z")) := by
    have e1 : tail1 ('x' :: ' ' :: 's' :: 'o' :: ' ' :: 'y' ::
        (List.replicate n '*' ++ s2l ("\nZ"))) =
        tail1 ('s' :: 'o' :: ' ' :: 'y' ::
          (List.replicate n '*' ++ s2l ("\nZ"))) := rfl
    rw [e1, l4]
  have l6 : msA ('a' :: ' ' :: 'x' :: ' ' :: 's' :: 'o' :: ' ' :: 'y' ::
      (List.replicate n '*' ++ s2l ("\nZ"))) = some (s2l ("Z")) := by
    have e1 : msA ('a' :: ' ' :: 'x' :: ' ' :: 's' :: 'o' :: ' ' :: 'y' ::
        (List.replicate n '*' ++ s2l ("\nZ"))) =
        (ws1 tail1 ('x' :: ' ' :: 's' :: 'o' :: ' ' :: 'y' ::
          (List.replicate n '*' ++ s2l ("\nZ"))) <|>
          tail1 ('x' :: ' ' :: 's' :: 'o' :: ' ' :: 'y' ::
            (List.replicate n '*' ++ s2l ("\nZ")))) := rfl
    have e2 : ws1 tail1 ('x' :: ' ' :: 's' :: 'o' :: ' ' :: 'y' ::
        (List.replicate n '*' ++ s2l ("\nZ"))) = none := rfl
    rw [e1, e2, l5]
    rfl
  have l7 : msAs ('A' :: 's' :: ' ' :: 'a' :: ' ' :: 'x' :: ' ' :: 's' ::
      'o' :: ' ' :: 'y' :: (List.replicate n '*' ++ s2l ("\nZ"))) =
      some (s2l ("Z")) := by
    have e1 : msAs ('A' :: 's' :: ' ' :: 'a' :: ' ' :: 'x' :: ' ' :: 's' ::
        'o' :: ' ' :: 'y' :: (List.replicate n '*' ++ s2l ("\nZ"))) =
        (ws1 msA ('a' :: ' ' :: 'x' :: ' ' :: 's' :: 'o' :: ' ' :: 'y' ::
          (List.replicate n '*' ++ s2l ("\nZ"))) <|>
          msA ('a' :: ' ' :: 'x' :: ' ' :: 's' :: 'o' :: ' ' :: 'y' ::
            (List.replicate n '*' ++ s2l ("\nZ")))) := rfl
    have e2 : ws1 msA ('a' :: ' ' :: 'x' :: ' ' :: 's' :: 'o' :: ' ' :: 'y' ::
        (List.replicate n '*' ++ s2l ("\nZ"))) = none := rfl
    rw [e1, e2, l6]
    rfl
  have e0 : s2l ("*As a x so y") ++ (List.replicate n '*' ++ s2l ("\nZ")) =
      '*' :: 'A' :: 's' :: ' ' :: 'a' :: ' ' :: 'x' :: ' ' :: 's' :: 'o' ::
        ' ' :: 'y' :: (List.replicate n '*' ++ s2l ("\nZ")) := rfl
  have e1 : matchUserStory ('*' :: 'A' :: 's' :: ' ' :: 'a' :: ' ' :: 'x' ::
      ' ' :: 's' :: 'o' :: ' ' :: 'y' ::
      (List.replicate n '*' ++ s2l ("\nZ"))) =
      (msAs ('A' :: 's' :: ' ' :: 'a' :: ' ' :: 'x' :: ' ' :: 's' :: 'o' ::
        ' ' :: 'y' :: (List.replicate n '*' ++ s2l ("\nZ"))) <|>
        msAs ('*' :: 'A' :: 's' :: ' ' :: 'a' :: ' ' :: 'x' :: ' ' :: 's' ::
          'o' :: ' ' :: 'y' ::
          (List.replicate n '*' ++ s2l ("\nZ")))) := rfl
  rw [e0, e1, l7]
  rfl

theorem formatText_eq_of_match {s r : List Char}
    (h : matchUserStory s = some r) :
    formatText s =
      (if startsH2Desc (pstrip r)
       then stripStars (pstrip (s.take (s.length - (r.length + 1)))) ++
         nl2 ++ pstrip r
       else stripStars (pstrip (s.take (s.length - (r.length + 1)))) ++
         nl2 ++ h2DescLine ++ nl2 ++ pstrip r) := by
  unfold formatText
  rw [h]

/-- Trailing asterisk runs of every length are stripped from the matched
story line. -/
theorem formatText_trailing_stars (n : Nat) :
    formatText (s2l ("*As a x so y") ++ List.replicate n '*' ++ s2l ("\nZ")) =
      s2l ("As a x so y\n\nh2. Description\n\nZ") := by
  rw [formatText_eq_of_match (matchUserStory_trailing_stars n)]
  have hlen : (s2l ("*As a x so y") ++ List.replicate n '*' ++
      s2l ("\nZ")).length - ((s2l ("Z")).length + 1) =
      (s2l ("*As a x so y") ++ List.replicate n '*').length := by
    simp [List.length_append, List.length_replicate, s2l]
  rw [hlen, List.take_left' rfl]
  have hps : pstrip (s2l ("*As a x so y") ++ List.replicate n '*') =
      s2l ("*As a x so y") ++ List.replicate n '*' := by
    unfold pstrip stripBy rstripBy
    have h1 : List.dropWhile isPySpace
        (s2l ("*As a x so y") ++ List.replicate n '*') =
        s2l ("*As a x so y") ++ List.replicate n '*' := rfl
    rw [h1, List.reverse_append, List.reverse_replicate,
      dropWhile_replicate_false (show isPySpace '*' = false from rfl) n
        ((s2l ("*As a x so y")).reverse) rfl]
    simp [List.reverse_append, List.reverse_replicate, List.reverse_reverse]
  rw [hps]
  have hss : stripStars (s2l ("*As a x so y") ++ List.replicate n '*') =
      s2l ("As a x so y") := by
    unfold stripStars stripBy rstripBy
    have h1 : List.dropWhile (fun c => c == '*')
        (s2l ("*As a x so y") ++ List.replicate n '*') =
        s2l ("As a x so y") ++ List.replicate n '*' := rfl
    rw [h1, List.reverse_append, List.reverse_replicate,
      @dropWhile_replicate_true (fun c => c == '*') '*' rfl n _]
    have h2 : List.dropWhile (fun c => c == '*')
        ((s2l ("As a x so y")).reverse) = (s2l ("As a x so y")).reverse := rfl
    rw [h2, List.reverse_reverse]
  rw [hss]
  rfl

/-- C10 counterexample: with two leading asterisks the story-line regex does
not match at all, so `format_description` returns the text unchanged and the
emitted first line still begins with an asterisk — contradicting the claim
that any number of wrapping asterisks is stripped. -/
theorem c10_counterexample :
    formatText (s2l ("**As a x so y**\nZ")) = s2l ("**As a x so y**\nZ") ∧
    (formatText (s2l ("**As a x so y**\nZ"))).head? = some '*' :=
  ⟨rfl, rfl⟩

/-- C10 (amended): when the story line matches (at most one leading
asterisk), `str.strip('*')` removes every leading and trailing asterisk —
a run of trailing asterisks of any length is absorbed by the lazy `.*?` and
stripped — but two or more leading asterisks prevent the match entirely and
the text passes through unchanged. -/
theorem c10_star_stripping :
    (∀ n : Nat, formatText (s2l ("*As a x so y") ++ List.replicate n '*' ++
      s2l ("\nZ")) = s2l ("As a x so y\n\nh2. Description\n\nZ")) ∧
    formatText (s2l ("*As a x so y***\nZ")) =
      s2l ("As a x so y\n\nh2. Description\n\nZ") ∧
    formatText (s2l ("As a x so y**\nZ")) =
      s2l ("As a x so y\n\nh2. Description\n\nZ") ∧
    formatText (s2l ("**As a x so y**\nZ")) = s2l ("**As a x so y**\nZ") :=
  ⟨formatText_trailing_stars, rfl, rfl, rfl⟩

/-- C1 counterexample: `process` is not idempotent.  For
`"As a x so y\nAcceptance Criteria: z"` the first pass inserts a blank line
and the Description heading before the (previously unanchored) acceptance
criteria, and the second pass then strips that section. -/
theorem c1_counterexample :
    process_description (process_description
      (some (s2l ("As a x so y\nAcceptance Criteria: z")))) ≠
    process_description (some (s2l ("As a x so y\nAcceptance Criteria: z"))) := by
  decide

set_option maxRecDepth 8000 in
/-- C1 (amended): idempotence fails in general (see the counterexample);
it does hold on already-normalized inputs such as the outputs of the
module's two self-test descriptions. -/
theorem c1_idempotent_on_selftests :
    process_description (process_description (some (s2l ("As a developer, I want X so Y\n\nh2. Description\n\nSome description here.\n\nh2. Acceptance Criteria\n* Item 1\n* Item 2")))) =
      process_description (some (s2l ("As a developer, I want X so Y\n\nh2. Description\n\nSome description here.\n\nh2. Acceptance Criteria\n* Item 1\n* Item 2"))) ∧
    process_description (process_description (some (s2l ("*As a developer, I want X so Y*\n\nDescription here.\n\n*Acceptance Criteria:*\n* Item 1\n* Item 2\n\n*Success Metrics:*\n* Metric 1")))) =
      process_description (some (s2l ("*As a developer, I want X so Y*\n\nDescription here.\n\n*Acceptance Criteria:*\n* Item 1\n* Item 2\n\n*Success Metrics:*\n* Metric 1"))) :=
  ⟨rfl, rfl⟩

/-- C6 counterexample: the formatter can reintroduce a run of four newlines.
For `"As a q so \n\n*\nZ"` the greedy `\s+` after `so` swallows the blank
line, `strip('*')` re-exposes it at the end of the story line, and the
inserted blank line then yields `\n\n\n\n` in the output of `process`. -/
theorem c6_counterexample :
    processText (s2l ("As a q so \n\n*\nZ")) =
      s2l ("As a q so \n\n\n\nh2. Description\n\nZ") ∧
    containsSeq nl3 (processText (s2l ("As a q so \n\n*\nZ"))) = true :=
  ⟨rfl, rfl⟩

/-- C6 (amended): the section stripper's output never contains three or
more consecutive line breaks, for every input; the formatter stage however
can reintroduce such a run (see the counterexample). -/
theorem c6_stripper_no_triple_newlines (s : List Char) :
    containsSeq nl3 (removeACtext s) = false := by
  unfold removeACtext
  exact containsSeq_false_of_isInf (pstrip_isInf _) (collapse_noNl3 _)

/-- C8 counterexample: an input matching no stripping pattern and no story
pattern is still not returned unchanged: blank-line collapsing and
whitespace trimming always run. -/
theorem c8_counterexample :
    subPat match1At (s2l ("x\n\n\n\ny")) = s2l ("x\n\n\n\ny") ∧
    subPat match2At (s2l ("x\n\n\n\ny")) = s2l ("x\n\n\n\ny") ∧
    subPat match3At (s2l ("x\n\n\n\ny")) = s2l ("x\n\n\n\ny") ∧
    subPat match4At (s2l ("x\n\n\n\ny")) = s2l ("x\n\n\n\ny") ∧
    subPat match5At (s2l ("x\n\n\n\ny")) = s2l ("x\n\n\n\ny") ∧
    matchUserStory (s2l ("x\n\n\n\ny")) = none ∧
    processText (s2l ("x\n\n\n\ny")) ≠ s2l ("x\n\n\n\ny") := by
  refine ⟨rfl, rfl, rfl, rfl, rfl, rfl, ?_⟩
  decide

/-- C8 (amended): the pipeline is total — every stage is a total function
of the embedding — and input that matches no stripping pattern and no
story-line pattern passes through with only blank-line collapsing and
end trimming applied (not fully unchanged, see the counterexample). -/
theorem c8_total_passthrough (s : List Char)
    (h1 : subPat match1At s = s) (h2 : subPat match2At s = s)
    (h3 : subPat match3At s = s) (h4 : subPat match4At s = s)
    (h5 : subPat match5At s = s)
    (h6 : matchUserStory (pstrip (collapse s)) = none) :
    processText s = pstrip (collapse s) := by
  unfold processText removeACtext
  rw [h1, h2, h3, h4, h5]
  exact formatText_of_no_match h6

theorem c8_total_passthrough_witness :
    processText (s2l ("x\n\n\n\ny")) = pstrip (collapse (s2l ("x\n\n\n\ny"))) :=
  c8_total_passthrough (s2l ("x\n\n\n\ny")) rfl rfl rfl rfl rfl rfl

/-- C9: all five stripping patterns require a preceding blank line, so on
any text with no blank line (`\n\n`) the stripper only trims whitespace,
and a recognized section at the start of the text or preceded by a single
line break survives `process` unchanged. -/
theorem c9_blank_line_anchoring :
    (∀ s : List Char, containsSeq nl2 s = false → removeACtext s = pstrip s) ∧
    processText (s2l ("h2. Acceptance Criteria\n* Item 1")) =
      s2l ("h2. Acceptance Criteria\n* Item 1") ∧
    processText (s2l ("Intro\nh2. Acceptance Criteria\n* Item 1")) =
      s2l ("Intro\nh2. Acceptance Criteria\n* Item 1") ∧
    containsI (s2l ("acceptance criteria"))
      (processText (s2l ("h2. Acceptance Criteria\n* Item 1"))) = true := by
  refine ⟨?_, rfl, rfl, rfl⟩
  intro s h
  unfold removeACtext
  rw [subPat_id_of_noNl2 (fun _ _ hm => match1At_shape hm) h,
    subPat_id_of_noNl2 (fun _ _ hm => match2At_shape hm) h,
    subPat_id_of_noNl2 (fun _ _ hm => match3At_shape hm) h,
    subPat_id_of_noNl2 (fun _ _ hm => match4At_shape hm) h,
    subPat_id_of_noNl2 (fun _ _ hm => match5At_shape hm) h,
    collapse_id (noNl3_of_noNl2 h)]

theorem c9_blank_line_anchoring_witness :
    removeACtext (s2l ("h2. Acceptance Criteria\n* Item 1")) =
      pstrip (s2l ("h2. Acceptance Criteria\n* Item 1")) :=
  c9_blank_line_anchoring.1 (s2l ("h2. Acceptance Criteria\n* Item 1"))
    (by decide)

/-- C2 counterexample: a text with a blank-line-anchored
`h2. Acceptance Criteria` section followed by a bullet line, whose prose
also mentions the phrase, still contains `Acceptance Criteria` after
stripping: only the anchored section is removed. -/
theorem c2_counterexample :
    containsI (s2l ("acceptance criteria"))
      (s2l ("See Acceptance Criteria below.\n\nh2. Acceptance Criteria\n* Item 1")) = true ∧
    removeACtext (s2l ("See Acceptance Criteria below.\n\nh2. Acceptance Criteria\n* Item 1")) =
      s2l ("See Acceptance Criteria below.") ∧
    containsI (s2l ("acceptance criteria"))
      (removeACtext (s2l ("See Acceptance Criteria below.\n\nh2. Acceptance Criteria\n* Item 1"))) = true :=
  ⟨rfl, rfl, rfl⟩

/-! ### Scanning across blank-line-free stretches -/

theorem subPat_append_walk {m : List Char → Option (List Char)}
    (hs : ∀ l r, m l = some r → ∃ u, l = '\n' :: '\n' :: u)
    {B X : List Char} (hB : containsSeq nl2 B = false)
    (hlast : m ('\n' :: X) = none) :
    subPat m (B ++ X) = B ++ subPat m X := by
  induction B with
  | nil => simp
  | cons c cs ih =>
    have hnone : m (c :: (cs ++ X)) = none := by
      cases hm : m (c :: (cs ++ X)) with
      | none => rfl
      | some r =>
        exfalso
        obtain ⟨u, hu⟩ := hs _ _ hm
        injection hu with h1 h2
        subst h1
        cases cs with
        | nil =>
          rw [List.nil_append] at hm
          simp [hlast] at hm
        | cons d ds =>
          have hd : d = '\n' := by
            have h3 := congrArg List.head? h2
            simpa using h3
          have h4 : startsWithSeq nl2 ('\n' :: d :: ds) = true := by
            simp [startsWithSeq, nl2, hd]
          simp [containsSeq_of_starts h4] at hB
    rw [List.cons_append, subPat_cons_none hnone,
      ih (containsSeq_cons_false hB).2, List.cons_append]

theorem lazyUntil_append {stop : List Char → Bool}
    (hstop : ∀ c cs, stop (c :: cs) = true →
      startsWithSeq nl2 (c :: cs) = true ∨ c :: cs = ['\n'])
    {B X : List Char} (hB : containsSeq nl2 B = false) (hXne : X ≠ [])
    (hlast : stop ('\n' :: X) = false) (hX : stop X = true) :
    lazyUntil stop (B ++ X) = X := by
  induction B with
  | nil =>
    simp only [List.nil_append]
    cases X with
    | nil => rfl
    | cons c cs => simp [lazyUntil, hX]
  | cons c cs ih =>
    simp only [List.cons_append, lazyUntil]
    have hstop_false : stop (c :: (cs ++ X)) = false := by
      cases hsf : stop (c :: (cs ++ X)) with
      | false => rfl
      | true =>
        exfalso
        rcases hstop _ _ hsf with h1 | h1
        · obtain ⟨t, ht⟩ := starts_nl2_shape h1
          injection ht with he1 ht2
          subst he1
          cases cs with
          | nil =>
            rw [List.nil_append] at ht2 hsf
            simp [hlast] at hsf
          | cons d ds =>
            have hd : d = '\n' := by
              have h3 := congrArg List.head? ht2
              simpa using h3
            have h4 : startsWithSeq nl2 ('\n' :: d :: ds) = true := by
              simp [startsWithSeq, nl2, hd]
            simp [containsSeq_of_starts h4] at hB
        · injection h1 with _ h2
          exact hXne (List.append_eq_nil.mp h2).2
    rw [if_neg (by simp [hstop_false])]
    exact ih (containsSeq_cons_false hB).2

/-- C2 (amended): for a text made of a single-line intro (no line break, no
case-insensitive `acceptance`), a blank line, the `h2. Acceptance Criteria`
heading, and a bullet body with no blank line, the stripper removes the
whole section and its output contains no case-insensitive occurrence of
`Acceptance Criteria`. -/
theorem c2_anchored_section_removed (I B : List Char)
    (hI : '\n' ∉ I)
    (hIa : containsI accW I = false)
    (hB : containsSeq nl2 B = false) :
    containsI (s2l ("acceptance criteria"))
      (removeACtext (I ++ s2l ("\n\nh2. Acceptance Criteria") ++ B)) = false := by
  have hρ := lazyUntil_of_noNl2 look1_stop hB
  have hnoNl2 : containsSeq nl2 (I ++ lazyUntil look1 B) = false := by
    rcases hρ with h | h <;> rw [h]
    · simpa using noNl2_of_nlFree hI
    · exact noNl2_append hI
  have hsub1 : subPat match1At (I ++ s2l ("\n\nh2. Acceptance Criteria") ++ B) =
      I ++ lazyUntil look1 B := by
    rw [List.append_assoc,
      subPat_append_of_ne (fun _ _ hm => match1At_shape hm) hI]
    congr 1
    have h2 : subPat match1At (s2l ("\n\nh2. Acceptance Criteria") ++ B) =
        subPat match1At (lazyUntil look1 B) :=
      subPat_cons_some (fun _ _ hm => match1At_consumes hm)
        (show match1At ('\n' :: ('\n' :: (s2l ("h2. Acceptance Criteria") ++ B))) =
          some (lazyUntil look1 B) from rfl)
    rw [h2]
    rcases hρ with h | h <;> rw [h] <;> rfl
  have hid : ∀ m, (∀ l r, m l = some r → ∃ u, l = '\n' :: '\n' :: u) →
      subPat m (I ++ lazyUntil look1 B) = I ++ lazyUntil look1 B :=
    fun m hm => subPat_id_of_noNl2 hm hnoNl2
  have hocc : containsI accW (I ++ lazyUntil look1 B) = false := by
    rcases hρ with h | h <;> rw [h]
    · simpa using hIa
    · exact containsI_append_nl (by decide) hIa
  unfold removeACtext
  rw [hsub1, hid _ (fun _ _ hm => match2At_shape hm),
    hid _ (fun _ _ hm => match3At_shape hm),
    hid _ (fun _ _ hm => match4At_shape hm),
    hid _ (fun _ _ hm => match5At_shape hm),
    collapse_id (noNl3_of_noNl2 hnoNl2)]
  exact containsI_false_of_isInf (pstrip_isInf _)
    (containsI_false_mono (by decide) hocc)

theorem c2_anchored_section_removed_witness :
    containsI (s2l ("acceptance criteria"))
      (removeACtext (s2l ("Intro") ++ s2l ("\n\nh2. Acceptance Criteria") ++
        s2l ("\n* Item 1\n* Item 2"))) = false :=
  c2_anchored_section_removed (s2l ("Intro")) (s2l ("\n* Item 1\n* Item 2"))
    (by decide) (by decide) (by decide)

/-- After a removal the text is a newline-free intro plus at most one
newline: collapsing and trimming keep it free of the given phrase. -/
theorem final_no_occurrence {I ρ w pat : List Char}
    (hI : '\n' ∉ I) (hρ : ρ = [] ∨ ρ = ['\n'])
    (hw : containsI w I = false) (hnlw : '\n' ∉ low w)
    (hmono : low w <:+: low pat) :
    containsI pat (pstrip (collapse (I ++ ρ))) = false := by
  have hnoNl2 : containsSeq nl2 (I ++ ρ) = false := by
    rcases hρ with h | h <;> rw [h]
    · simpa using noNl2_of_nlFree hI
    · exact noNl2_append hI
  have hocc : containsI w (I ++ ρ) = false := by
    rcases hρ with h | h <;> rw [h]
    · simpa using hw
    · exact containsI_append_nl hnlw hw
  rw [collapse_id (noNl3_of_noNl2 hnoNl2)]
  exact containsI_false_of_isInf (pstrip_isInf _)
    (containsI_false_mono hmono hocc)

/-- A marker stretch `\n\n` + newline-free text + blank-line-free tail on
which the matcher finds nothing is left unchanged by its substitution. -/
theorem subPat_marker_walk {m : List Char → Option (List Char)}
    (hs : ∀ l r, m l = some r → ∃ u, l = '\n' :: '\n' :: u)
    {Mt B : List Char} (hMt : '\n' ∉ Mt)
    (h0 : m ('\n' :: '\n' :: (Mt ++ B)) = none)
    (h1 : m ('\n' :: (Mt ++ B)) = none)
    (hB : containsSeq nl2 B = false) :
    subPat m ('\n' :: '\n' :: (Mt ++ B)) = '\n' :: '\n' :: (Mt ++ B) := by
  rw [subPat_cons_none h0, subPat_cons_none h1,
    subPat_append_of_ne hs hMt, subPat_id_of_noNl2 hs hB]

/-- C3 helper, bold form with an Acceptance Criteria section in front:
pattern 2 removes the acceptance section up to the `\n\n*Success` lookahead
and pattern 4 then removes the Success Metrics section. -/
theorem c3_bold_with_ac (I B1 B2 : List Char)
    (hI : '\n' ∉ I) (hIs : containsI succW I = false)
    (hB1 : containsSeq nl2 B1 = false) (hB2 : containsSeq nl2 B2 = false) :
    containsI (s2l ("success metrics"))
      (removeACtext (I ++ s2l ("\n\n*Acceptance Criteria:*") ++ B1 ++
        s2l ("\n\n*Success Metrics:*") ++ B2)) = false := by
  have hT : I ++ s2l ("\n\n*Acceptance Criteria:*") ++ B1 ++
      s2l ("\n\n*Success Metrics:*") ++ B2 =
      I ++ (s2l ("\n\n*Acceptance Criteria:*") ++
        (B1 ++ (s2l ("\n\n*Success Metrics:*") ++ B2))) := by
    simp [List.append_assoc]
  have hSne : s2l ("\n\n*Success Metrics:*") ++ B2 ≠ [] := by
    simp [s2l]
  -- the S marker block is untouched by matchers 1, 2, 3
  have hSfix : ∀ m : List Char → Option (List Char),
      (∀ l r, m l = some r → ∃ u, l = '\n' :: '\n' :: u) →
      m (s2l ("\n\n*Success Metrics:*") ++ B2) = none →
      m ('\n' :: (s2l ("*Success Metrics:*") ++ B2)) = none →
      subPat m (s2l ("\n\n*Success Metrics:*") ++ B2) =
        s2l ("\n\n*Success Metrics:*") ++ B2 := by
    intro m hs h0 h1
    exact subPat_marker_walk hs (by decide) h0 h1 hB2
  -- pattern 1 leaves the whole text unchanged
  have hsub1 : subPat match1At
      (I ++ (s2l ("\n\n*Acceptance Criteria:*") ++
        (B1 ++ (s2l ("\n\n*Success Metrics:*") ++ B2)))) =
      I ++ (s2l ("\n\n*Acceptance Criteria:*") ++
        (B1 ++ (s2l ("\n\n*Success Metrics:*") ++ B2))) := by
    rw [subPat_append_of_ne (fun _ _ hm => match1At_shape hm) hI]
    congr 1
    rw [show s2l ("\n\n*Acceptance Criteria:*") ++
        (B1 ++ (s2l ("\n\n*Success Metrics:*") ++ B2)) =
      '\n' :: '\n' :: (s2l ("*Acceptance Criteria:*") ++
        (B1 ++ (s2l ("\n\n*Success Metrics:*") ++ B2))) from rfl]
    rw [subPat_cons_none rfl, subPat_cons_none rfl,
      subPat_append_of_ne (fun _ _ hm => match1At_shape hm) (by decide),
      subPat_append_walk (fun _ _ hm => match1At_shape hm) hB1
        (show match1At ('\n' :: (s2l ("\n\n*Success Metrics:*") ++ B2)) = none
          from rfl),
      hSfix _ (fun _ _ hm => match1At_shape hm) rfl rfl]
  -- pattern 2 removes the acceptance section up to the Success lookahead
  have hlazy2 : lazyUntil look23
      (B1 ++ (s2l ("\n\n*Success Metrics:*") ++ B2)) =
      s2l ("\n\n*Success Metrics:*") ++ B2 :=
    lazyUntil_append look23_stop hB1 hSne rfl rfl
  have hsub2 : subPat match2At
      (I ++ (s2l ("\n\n*Acceptance Criteria:*") ++
        (B1 ++ (s2l ("\n\n*Success Metrics:*") ++ B2)))) =
      I ++ (s2l ("\n\n*Success Metrics:*") ++ B2) := by
    rw [subPat_append_of_ne (fun _ _ hm => match2At_shape hm) hI]
    congr 1
    have h2 : subPat match2At (s2l ("\n\n*Acceptance Criteria:*") ++
        (B1 ++ (s2l ("\n\n*Success Metrics:*") ++ B2))) =
        subPat match2At (lazyUntil look23
          (B1 ++ (s2l ("\n\n*Success Metrics:*") ++ B2))) :=
      subPat_cons_some (fun _ _ hm => match2At_consumes hm)
        (show match2At ('\n' :: ('\n' :: ('*' ::
          (s2l ("Acceptance Criteria:*") ++
            (B1 ++ (s2l ("\n\n*Success Metrics:*") ++ B2)))))) =
          some (lazyUntil look23
            (B1 ++ (s2l ("\n\n*Success Metrics:*") ++ B2))) from rfl)
    rw [h2, hlazy2, hSfix _ (fun _ _ hm => match2At_shape hm) rfl rfl]
  -- pattern 3 leaves the remaining text unchanged
  have hsub3 : subPat match3At (I ++ (s2l ("\n\n*Success Metrics:*") ++ B2)) =
      I ++ (s2l ("\n\n*Success Metrics:*") ++ B2) := by
    rw [subPat_append_of_ne (fun _ _ hm => match3At_shape hm) hI]
    congr 1
    exact hSfix _ (fun _ _ hm => match3At_shape hm) rfl rfl
  -- pattern 4 removes the Success Metrics section
  have hρ := lazyUntil_of_noNl2 look45_stop hB2
  have hsub4 : subPat match4At (I ++ (s2l ("\n\n*Success Metrics:*") ++ B2)) =
      I ++ lazyUntil look45 B2 := by
    rw [subPat_append_of_ne (fun _ _ hm => match4At_shape hm) hI]
    congr 1
    have h2 : subPat match4At (s2l ("\n\n*Success Metrics:*") ++ B2) =
        subPat match4At (lazyUntil look45 B2) :=
      subPat_cons_some (fun _ _ hm => match4At_consumes hm)
        (show match4At ('\n' :: ('\n' :: ('*' ::
          (s2l ("Success Metrics:*") ++ B2)))) =
          some (lazyUntil look45 B2) from rfl)
    rw [h2]
    rcases hρ with h | h <;> rw [h] <;> rfl
  -- pattern 5 leaves the newline-free remainder unchanged
  have hnoNl2 : containsSeq nl2 (I ++ lazyUntil look45 B2) = false := by
    rcases hρ with h | h <;> rw [h]
    · simpa using noNl2_of_nlFree hI
    · exact noNl2_append hI
  unfold removeACtext
  rw [hT, hsub1, hsub2, hsub3, hsub4,
    subPat_id_of_noNl2 (fun _ _ hm => match5At_shape hm) hnoNl2]
  exact final_no_occurrence hI hρ hIs (by decide) (by decide)

/-- C3 helper, heading form with no Acceptance Criteria section present:
pattern 5 removes the `h2. Success Metrics` section. -/
theorem c3_heading_without_ac (I B : List Char)
    (hI : '\n' ∉ I) (hIs : containsI succW I = false)
    (hB : containsSeq nl2 B = false) :
    containsI (s2l ("success metrics"))
      (removeACtext (I ++ s2l ("\n\nh2. Success Metrics") ++ B)) = false := by
  have hfix : ∀ m : List Char → Option (List Char),
      (∀ l r, m l = some r → ∃ u, l = '\n' :: '\n' :: u) →
      m (s2l ("\n\nh2. Success Metrics") ++ B) = none →
      m ('\n' :: (s2l ("h2. Success Metrics") ++ B)) = none →
      subPat m (I ++ s2l ("\n\nh2. Success Metrics") ++ B) =
        I ++ s2l ("\n\nh2. Success Metrics") ++ B := by
    intro m hs h0 h1
    rw [List.append_assoc, subPat_append_of_ne hs hI]
    congr 1
    exact subPat_marker_walk hs (by decide) h0 h1 hB
  have hρ := lazyUntil_of_noNl2 look45_stop hB
  have hsub5 : subPat match5At (I ++ s2l ("\n\nh2. Success Metrics") ++ B) =
      I ++ lazyUntil look45 B := by
    rw [List.append_assoc,
      subPat_append_of_ne (fun _ _ hm => match5At_shape hm) hI]
    congr 1
    have h2 : subPat match5At (s2l ("\n\nh2. Success Metrics") ++ B) =
        subPat match5At (lazyUntil look45 B) :=
      subPat_cons_some (fun _ _ hm => match5At_consumes hm)
        (show match5At ('\n' :: ('\n' :: (s2l ("h2. Success Metrics") ++ B))) =
          some (lazyUntil look45 B) from rfl)
    rw [h2]
    rcases hρ with h | h <;> rw [h] <;> rfl
  unfold removeACtext
  rw [hfix _ (fun _ _ hm => match1At_shape hm) rfl rfl,
    hfix _ (fun _ _ hm => match2At_shape hm) rfl rfl,
    hfix _ (fun _ _ hm => match3At_shape hm) rfl rfl,
    hfix _ (fun _ _ hm => match4At_shape hm) rfl rfl,
    hsub5]
  exact final_no_occurrence hI hρ hIs (by decide) (by decide)

/-- C3 (amended): a blank-line-anchored Success Metrics section — in bold
form with an Acceptance Criteria section before it, or in `h2.` heading
form on its own — is removed, and for a single-line intro free of the word
`success` the stripper's output contains no case-insensitive occurrence of
`Success Metrics`, whether or not an Acceptance Criteria section was
present. -/
theorem c3_success_metrics_removed (I B1 B2 B : List Char)
    (hI : '\n' ∉ I) (hIs : containsI succW I = false)
    (hB1 : containsSeq nl2 B1 = false) (hB2 : containsSeq nl2 B2 = false)
    (hB : containsSeq nl2 B = false) :
    containsI (s2l ("success metrics"))
      (removeACtext (I ++ s2l ("\n\n*Acceptance Criteria:*") ++ B1 ++
        s2l ("\n\n*Success Metrics:*") ++ B2)) = false ∧
    containsI (s2l ("success metrics"))
      (removeACtext (I ++ s2l ("\n\nh2. Success Metrics") ++ B)) = false :=
  ⟨c3_bold_with_ac I B1 B2 hI hIs hB1 hB2,
   c3_heading_without_ac I B hI hIs hB⟩

theorem c3_success_metrics_removed_witness :
    containsI (s2l ("success metrics"))
      (removeACtext (s2l ("Intro") ++ s2l ("\n\n*Acceptance Criteria:*") ++
        s2l ("\n* A1") ++ s2l ("\n\n*Success Metrics:*") ++ s2l ("\n* M1"))) = false ∧
    containsI (s2l ("success metrics"))
      (removeACtext (s2l ("Intro") ++ s2l ("\n\nh2. Success Metrics") ++
        s2l ("\n* M1"))) = false :=
  c3_success_metrics_removed (s2l ("Intro")) (s2l ("\n* A1")) (s2l ("\n* M1"))
    (s2l ("\n* M1")) (by decide) (by decide) (by decide) (by decide) (by decide)

/-- C3 counterexample: same failure for Success Metrics: a prose mention
outside the removed section survives stripping. -/
theorem c3_counterexample :
    containsI (s2l ("success metrics"))
      (s2l ("Note Success Metrics here.\n\n*Success Metrics:*\n* M")) = true ∧
    removeACtext (s2l ("Note Success Metrics here.\n\n*Success Metrics:*\n* M")) =
      s2l ("Note Success Metrics here.") ∧
    containsI (s2l ("success metrics"))
      (removeACtext (s2l ("Note Success Metrics here.\n\n*Success Metrics:*\n* M"))) = true :=
  ⟨rfl, rfl, rfl⟩
